import Mathlib

/-!
Verification of the versioned S3 storage client (`storage/storage-s3v.go`).

The Go code is shallowly embedded: Go strings are byte lists (`Bytes`),
machine integers are `Nat`, the remote store and its network transport are
oracles (functions from attempt / page indices to responses), `time.Sleep`
is counted instead of performed, and channel sends are accumulated into an
output list in send order.  Errors are opaque (`Err := Nat`); fallible Go
code returns `Option Err` (an error or nil) or `Except Err α`.

The `Object` entity, the `strongEtag` helper and the SDK pager live outside
the observed source file; they are modelled from the spec where needed and
marked as such.
-/

set_option maxRecDepth 10000

/-- A Go string viewed as its byte sequence. -/
abbrev Bytes := List Nat

/-- Opaque error values: the module never inspects an error, only compares it
against nil, so an abstract code suffices. -/
abbrev Err := Nat

deriving instance DecidableEq for Except

/-- Modelled from the spec (section 3): the `Object` entity is defined in a
sibling file of the repository, not in the observed source.  Optional fields
are `Option`; `Metadata` is an association list of user key/value pairs. -/
structure Object where
  Key : Option Bytes
  VersionId : Option Bytes
  ETag : Option Bytes
  Mtime : Option Nat
  IsLatest : Option Bool
  Content : Option Bytes
  ContentType : Option Bytes
  ContentDisposition : Option Bytes
  ContentEncoding : Option Bytes
  ContentLanguage : Option Bytes
  CacheControl : Option Bytes
  ACL : Option Bytes
  Metadata : List (Bytes × Bytes)
  deriving DecidableEq

/-- The client state of `S3vStorage` that the operations read: key prefix
(`pfx`, Go field `prefix`), page size, retry count, pagination cursor and the
identity of the client's shared rate-limiter bucket (`rlBucket`).  The session
handle and context carry no observable state in the embedding. -/
structure S3vStorage where
  pfx : Bytes
  keysPerReq : Nat
  retryCnt : Nat
  listMarker : Option Bytes
  rlBucket : Nat
  deriving DecidableEq

/-- `aws.StringValue`: dereference a string pointer, nil becoming "". -/
def stringValue : Option Bytes → Bytes
  | some s => s
  | none => []

/-- byte predicate for Go's `ishex` ('0'-'9', 'a'-'f', 'A'-'F'). -/
def isHexByte (b : Nat) : Bool :=
  (48 ≤ b && b ≤ 57) || (97 ≤ b && b ≤ 102) || (65 ≤ b && b ≤ 70)

/-- Go's `unhex`: numeric value of a hex digit byte. -/
def unhexByte (b : Nat) : Nat :=
  if 48 ≤ b && b ≤ 57 then b - 48
  else if 97 ≤ b && b ≤ 102 then b - 87
  else b - 55

/-- prepend a byte under `Except` (the byte-builder step of Go's `unescape`
second pass, with the validation error of the first pass propagated). -/
def consE (b : Nat) : Except Unit Bytes → Except Unit Bytes
  | Except.ok t => Except.ok (b :: t)
  | Except.error e => Except.error e

/-- Go's `url.QueryUnescape` (mode `encodeQueryComponent`): `%XX` decodes to
the byte `XX` and must be followed by two hex digits, `+` decodes to space,
every other byte passes through; any malformed escape fails the whole call. -/
def queryUnescape : Bytes → Except Unit Bytes
  | [] => Except.ok []
  | b :: rest =>
    if b = 37 then
      match rest with
      | h1 :: h2 :: rest2 =>
        if isHexByte h1 && isHexByte h2 then
          consE (unhexByte h1 * 16 + unhexByte h2) (queryUnescape rest2)
        else Except.error ()
      | _ => Except.error ()
    else if b = 43 then consE 32 (queryUnescape rest)
    else consE b (queryUnescape rest)

/-- The Go call site `key, _ := url.QueryUnescape(s)`: on a decode error the
error is discarded and the returned key is the empty string (Go's
`unescape` returns `"", err` on failure). -/
def queryUnescapeDropErr (s : Bytes) : Bytes :=
  match queryUnescape s with
  | Except.ok k => k
  | Except.error _ => []

/-- upper-case hex digit byte for a value below 16 (Go's `"0123456789ABCDEF"`). -/
def upperHexDigit (d : Nat) : Nat :=
  if d < 10 then 48 + d else 55 + d

/-- alphanumeric ASCII byte. -/
def isAlphaNumByte (b : Nat) : Bool :=
  (48 ≤ b && b ≤ 57) || (65 ≤ b && b ≤ 90) || (97 ≤ b && b ≤ 122)

/-- Modelled from the spec (section 4.2): the remote store percent-encodes
keys when URL pagination encoding is requested.  This is query-component
percent-encoding, the encoder matching the decoder used by the source:
alphanumerics and `-_.~` are kept, space becomes `+`, every other byte
becomes `%XX` with upper-case hex. -/
def shouldEscapeQuery (b : Nat) : Bool :=
  !(isAlphaNumByte b || b = 45 || b = 95 || b = 46 || b = 126)

/-- One byte of the store's percent-encoding (see `shouldEscapeQuery`). -/
def escapeByte (b : Nat) : Bytes :=
  if shouldEscapeQuery b then
    if b = 32 then [43] else [37, upperHexDigit (b / 16), upperHexDigit (b % 16)]
  else [b]

/-- Modelled from the spec: the store's percent-encoding of a whole key. -/
def queryEscape : Bytes → Bytes
  | [] => []
  | b :: rest => escapeByte b ++ queryEscape rest

/-- One version record of a list-versions page, as the store returns it
(`Key` still URL-encoded). -/
structure VersionRec where
  Key : Option Bytes
  VersionId : Option Bytes
  ETag : Option Bytes
  LastModified : Option Nat
  IsLatest : Option Bool
  deriving DecidableEq

/-- One page of a list-versions response: the version records, the page's
`VersionIdMarker` field (which the source copies into the client cursor) and
whether the page reports itself as the last page. -/
structure Page where
  Versions : List VersionRec
  VersionIdMarker : Option Bytes
  lastPage : Bool
  deriving DecidableEq

/-- Mutable state touched by one `List` call: the client's cursor and the
objects sent to the output channel so far, in send order. -/
structure ListState where
  listMarker : Option Bytes
  output : List Object
  deriving DecidableEq

/-- The object built for one version record inside `listObjectsFn`:
percent-decode the key (errors discarded, Go line `key, _ := ...`), keep
`VersionId`, normalize `ETag` through the `strongEtag` helper `se` (the
helper is outside the observed source, so it is a parameter), keep
`LastModified` as `Mtime` and `IsLatest`; all other fields stay empty. -/
def emitVersion (se : Option Bytes → Option Bytes) (o : VersionRec) : Object :=
  { Key := some (queryUnescapeDropErr (stringValue o.Key)),
    VersionId := o.VersionId, ETag := se o.ETag, Mtime := o.LastModified,
    IsLatest := o.IsLatest, Content := none, ContentType := none,
    ContentDisposition := none, ContentEncoding := none,
    ContentLanguage := none, CacheControl := none, ACL := none,
    Metadata := [] }

/-- The page callback of `List`: push an object per version record onto the
output channel, then set `storage.listMarker` from the page's
`VersionIdMarker`, and ask for another page exactly when this one is not the
last (`return !lastPage`). -/
def listObjectsFn (se : Option Bytes → Option Bytes) (p : Page) (st : ListState) :
    ListState × Bool :=
  ({ listMarker := p.VersionIdMarker,
     output := st.output ++ p.Versions.map (emitVersion se) }, !p.lastPage)

/-- Result of one `ListObjectVersionsPagesWithContext` call: the state after
the processed pages, the value of the client cursor at the moment each page
request was issued (in request order), the number of fully processed pages,
and the transport error, if any. -/
structure PagerResult where
  st : ListState
  reqMarkers : List (Option Bytes)
  pagesProcessed : Nat
  err : Option Err
  deriving DecidableEq

/-- Modelled from the spec (section 4.2) and the SDK contract used by the
source: the pager fetches page 0, 1, ... of the call (oracle `fetch`), runs
the callback on each page, and continues while the callback returns true;
a transport failure on a page request ends the call with that error, the
pages already processed staying processed.  `fuel` bounds the page count;
the theorems only use runs that end within fuel. -/
def pagerGo (se : Option Bytes → Option Bytes) (fetch : Nat → Except Err Page) :
    Nat → Nat → ListState → List (Option Bytes) → PagerResult
  | 0, j, st, acc => ⟨st, acc, j, none⟩
  | fuel + 1, j, st, acc =>
    match fetch j with
    | Except.error e => ⟨st, acc ++ [st.listMarker], j, some e⟩
    | Except.ok p =>
      match listObjectsFn se p st with
      | (st2, cont) =>
        if cont then pagerGo se fetch fuel (j + 1) st2 (acc ++ [st.listMarker])
        else ⟨st2, acc ++ [st.listMarker], j + 1, none⟩

/-- Outcome of a whole `List` call: final cursor and channel output, the
cursor value passed as `VersionIdMarker` of the first request of each retry
attempt (in attempt order), the number of pager calls, the number of
`time.Sleep(retryInterval)` calls, and the returned error (`none` = nil). -/
structure ListOutcome where
  st : ListState
  firstMarkers : List (Option Bytes)
  attempts : Nat
  sleeps : Nat
  result : Option Err
  deriving DecidableEq

/-- The retry loop of `List` (lines 103-123): build the input with
`VersionIdMarker := storage.listMarker`, run the pager (attempt `i` sees the
transport behaviour `fetch i`); on error with `i < retryCnt` sleep and
retry, on error with `i = retryCnt` return the error, otherwise return the
(nil) error.  `remaining = retryCnt - i` drives the recursion. -/
def listGo (se : Option Bytes → Option Bytes) (fetch : Nat → Nat → Except Err Page)
    (fuel : Nat) :
    Nat → Nat → Nat → ListState → List (Option Bytes) → ListOutcome
  | 0, i, sleeps, st, fms =>
    match pagerGo se (fetch i) fuel 0 st [] with
    | pr => ⟨pr.st, fms ++ [st.listMarker], i + 1, sleeps, pr.err⟩
  | rem + 1, i, sleeps, st, fms =>
    match pagerGo se (fetch i) fuel 0 st [] with
    | pr =>
      match pr.err with
      | some _ => listGo se fetch fuel rem (i + 1) (sleeps + 1) pr.st (fms ++ [st.listMarker])
      | none => ⟨pr.st, fms ++ [st.listMarker], i + 1, sleeps, none⟩

/-- `List` (lines 93-124): runs the retry loop from the client's stored
cursor with an initially empty channel transcript. -/
def S3vStorage.List (storage : S3vStorage) (se : Option Bytes → Option Bytes)
    (fetch : Nat → Nat → Except Err Page) (fuel : Nat) : ListOutcome :=
  listGo se fetch fuel storage.retryCnt 0 0 ⟨storage.listMarker, []⟩ []

/-- Outcome of the plain retry loop shared by `PutObject` and
`DeleteObject`: the returned error (`none` = nil), the number of remote
calls made and the number of sleeps. -/
structure RetryOutcome where
  result : Option Err
  attempts : Nat
  sleeps : Nat
  deriving DecidableEq

/-- The uniform retry loop (`for i := uint(0); ; i++`): attempt `i` makes
the wrapped remote call; on error with `i < retryCnt` sleep and retry, on
error with `i = retryCnt` return that error, on success return nil.
`remaining = retryCnt - i`. -/
def retryGo (call : Nat → Option Err) : Nat → Nat → Nat → RetryOutcome
  | 0, i, sleeps => ⟨call i, i + 1, sleeps⟩
  | rem + 1, i, sleeps =>
    match call i with
    | some _ => retryGo call rem (i + 1) (sleeps + 1)
    | none => ⟨none, i + 1, sleeps⟩

/-- The retry loop started at attempt 0. -/
def retryLoop (retryCnt : Nat) (call : Nat → Option Err) : RetryOutcome :=
  retryGo call retryCnt 0 0

/-- Outcome of an operation that also reports its rate-limited byte
streams: each entry is (bucket identity, bytes of the wrapped stream). -/
structure OpOutcome where
  result : Option Err
  attempts : Nat
  sleeps : Nat
  rlTraffic : List (Nat × Bytes)
  deriving DecidableEq

/-- `PutObject` (lines 128-157): dereference `*obj.Content` (building the
reader wrapped by `ratelimit.NewReadSeeker` with the client's bucket) and
`*obj.Key` (building the input), then run the retry loop around
`PutObjectWithContext` (oracle `put`).  A nil `Content` or `Key` pointer is
a crash, embedded as `none`: no outcome, and no remote call is made. -/
def S3vStorage.PutObject (storage : S3vStorage) (put : Nat → Option Err)
    (obj : Object) : Option OpOutcome :=
  match obj.Content, obj.Key with
  | some content, some _ =>
    match retryLoop storage.retryCnt put with
    | o => some ⟨o.result, o.attempts, o.sleeps, [(storage.rlBucket, content)]⟩
  | _, _ => none

/-- `DeleteObject` (lines 234-253): the retry loop around
`DeleteObjectWithContext` (oracle `del`); no byte stream is wrapped by the
rate limiter, so the traffic transcript is empty. -/
def S3vStorage.DeleteObject (storage : S3vStorage) (del : Nat → Option Err)
    (_obj : Object) : OpOutcome :=
  match retryLoop storage.retryCnt del with
  | o => ⟨o.result, o.attempts, o.sleeps, []⟩

/-- The metadata fields of a `HeadObject` response. -/
structure HeadOut where
  ContentType : Option Bytes
  ContentDisposition : Option Bytes
  ContentEncoding : Option Bytes
  ContentLanguage : Option Bytes
  CacheControl : Option Bytes
  ETag : Option Bytes
  Metadata : List (Bytes × Bytes)
  LastModified : Option Nat
  deriving DecidableEq

/-- The fields of a `GetObject` response used by the source (the body is
read through the drain oracle, so it is not a field here). -/
structure GetOut where
  ContentLength : Option Nat
  ContentType : Option Bytes
  ContentDisposition : Option Bytes
  ContentEncoding : Option Bytes
  ContentLanguage : Option Bytes
  CacheControl : Option Bytes
  ETag : Option Bytes
  Metadata : List (Bytes × Bytes)
  LastModified : Option Nat
  deriving DecidableEq

/-- The field assignments of `GetObjectMeta` (lines 220-227): the eight
metadata fields are overwritten from the response, every other field of the
object is untouched. -/
def applyHead (se : Option Bytes → Option Bytes) (obj : Object) (r : HeadOut) : Object :=
  { obj with ContentType := r.ContentType,
             ContentDisposition := r.ContentDisposition,
             ContentEncoding := r.ContentEncoding,
             ContentLanguage := r.ContentLanguage,
             ETag := se r.ETag, Metadata := r.Metadata,
             Mtime := r.LastModified, CacheControl := r.CacheControl }

/-- The field assignments of `GetObjectContent` (lines 187-196): the bytes
drained into the fresh buffer become `Content`, and the same eight metadata
fields as `GetObjectMeta` are overwritten from the response. -/
def applyGet (se : Option Bytes → Option Bytes) (obj : Object) (r : GetOut)
    (data : Bytes) : Object :=
  { obj with Content := some data,
             ContentType := r.ContentType,
             ContentDisposition := r.ContentDisposition,
             ContentEncoding := r.ContentEncoding,
             ContentLanguage := r.ContentLanguage,
             ETag := se r.ETag, Metadata := r.Metadata,
             Mtime := r.LastModified, CacheControl := r.CacheControl }

/-- Outcome of the retry loop of `GetObjectMeta`, returning the successful
response when there is one. -/
structure RetryOutcomeH where
  result : Except Err HeadOut
  attempts : Nat
  sleeps : Nat
  deriving DecidableEq

/-- The retry loop of `GetObjectMeta` around `HeadObjectWithContext`
(oracle `head`), same uniform pattern as `retryGo`. -/
def retryGoH (head : Nat → Except Err HeadOut) : Nat → Nat → Nat → RetryOutcomeH
  | 0, i, sleeps => ⟨head i, i + 1, sleeps⟩
  | rem + 1, i, sleeps =>
    match head i with
    | Except.error _ => retryGoH head rem (i + 1) (sleeps + 1)
    | Except.ok r => ⟨Except.ok r, i + 1, sleeps⟩

/-- Outcome of `GetObjectMeta`: the updated object or the terminal error,
attempt and sleep counts, and the (empty) rate-limited traffic. -/
structure MetaOutcome where
  result : Except Err Object
  attempts : Nat
  sleeps : Nat
  rlTraffic : List (Nat × Bytes)
  deriving DecidableEq

/-- `GetObjectMeta` (lines 203-231): the retry loop around the head request;
on success the eight metadata fields are written (`applyHead`) and nil is
returned; no byte stream passes through the rate limiter. -/
def S3vStorage.GetObjectMeta (storage : S3vStorage) (se : Option Bytes → Option Bytes)
    (head : Nat → Except Err HeadOut) (obj : Object) : MetaOutcome :=
  match retryGoH head storage.retryCnt 0 0 with
  | o =>
    match o.result with
    | Except.ok r => ⟨Except.ok (applyHead se obj r), o.attempts, o.sleeps, []⟩
    | Except.error e => ⟨Except.error e, o.attempts, o.sleeps, []⟩

/-- Outcome of `GetObjectContent`: the updated object or the terminal
error, the number of `GetObjectWithContext` requests issued, the sleeps, and
the byte streams written through the rate limiter (one entry per drain,
fresh buffer each time). -/
structure GetCOutcome where
  result : Except Err Object
  getCalls : Nat
  sleeps : Nat
  rlTraffic : List (Nat × Bytes)
  deriving DecidableEq

/-- The single retry loop of `GetObjectContent` (lines 167-199).  Each
iteration `i` issues the get request (oracle `getReq`); a request error
sleeps and continues (or returns it at the last attempt).  On a response, a
fresh buffer is allocated and the body is drained through
`ratelimit.NewWriter` (oracle `drain`, giving the bytes written to the
buffer and the `io.Copy` error, if any); a drain error sleeps and continues
— re-entering the loop head, so the get request is issued again — or
returns it at the last attempt.  On a clean drain the fields are written
(`applyGet`) and nil is returned.  `remaining = retryCnt - i`. -/
def getContentGo (se : Option Bytes → Option Bytes) (rlB : Nat)
    (getReq : Nat → Except Err GetOut) (drain : Nat → GetOut → Bytes × Option Err)
    (obj : Object) :
    Nat → Nat → Nat → List (Nat × Bytes) → GetCOutcome
  | 0, i, sleeps, tr =>
    match getReq i with
    | Except.error e => ⟨Except.error e, i + 1, sleeps, tr⟩
    | Except.ok r =>
      match drain i r with
      | (bs, some e) => ⟨Except.error e, i + 1, sleeps, tr ++ [(rlB, bs)]⟩
      | (bs, none) => ⟨Except.ok (applyGet se obj r bs), i + 1, sleeps, tr ++ [(rlB, bs)]⟩
  | rem + 1, i, sleeps, tr =>
    match getReq i with
    | Except.error _ => getContentGo se rlB getReq drain obj rem (i + 1) (sleeps + 1) tr
    | Except.ok r =>
      match drain i r with
      | (bs, some _) =>
        getContentGo se rlB getReq drain obj rem (i + 1) (sleeps + 1) (tr ++ [(rlB, bs)])
      | (bs, none) => ⟨Except.ok (applyGet se obj r bs), i + 1, sleeps, tr ++ [(rlB, bs)]⟩

/-- `GetObjectContent` (lines 160-200): the loop started at attempt 0, the
drain destination wrapped with the client's shared rate-limiter bucket. -/
def S3vStorage.GetObjectContent (storage : S3vStorage)
    (se : Option Bytes → Option Bytes) (getReq : Nat → Except Err GetOut)
    (drain : Nat → GetOut → Bytes × Option Err) (obj : Object) : GetCOutcome :=
  getContentGo se storage.rlBucket getReq drain obj storage.retryCnt 0 0 []

/-- A sample object with no fields set, for concrete evaluations. -/
def emptyObj : Object :=
  ⟨none, none, none, none, none, none, none, none, none, none, none, none, []⟩

/-- A sample client (retry count 1, empty cursor, bucket id 7), for concrete
evaluations. -/
def clientW : S3vStorage := ⟨[], 2, 1, none, 7⟩

/-- A sample head-object response, for concrete evaluations. -/
def headW : HeadOut := ⟨some [1], none, none, none, none, some [2], [([3], [4])], some 5⟩

/-- A sample get-object response, for concrete evaluations. -/
def getW : GetOut := ⟨some 2, some [1], none, none, none, none, some [2], [], some 5⟩

/-- A sample last page holding one version record, for concrete
evaluations. -/
def pageW : Page := ⟨[⟨some [97], some [118], some [101], some 9, some true⟩], some [109], true⟩

/-- A sample transport: attempt 0 delivers one non-last page (marker byte 5)
and then fails with error 3; later attempts deliver `pageW`. -/
def fetchW : Nat → Nat → Except Err Page :=
  fun i d =>
    if i = 0 then
      if d = 0 then Except.ok ⟨[], some [5], false⟩ else Except.error 3
    else Except.ok pageW

/-- The page family seen by attempt 0 of `fetchW`. -/
def pW : Nat → Page := fun _ => ⟨[], some [5], false⟩

/-! ## Lemmas about the uniform retry loop -/

/-- If the wrapped call fails on attempts `i..i+k-1` and succeeds on attempt
`i+k`, with `k` within the remaining budget, the loop returns nil after
`k + 1` calls and `k` sleeps. -/
theorem retryGo_ok_after (call : Nat → Option Err) :
    ∀ (k rem i s : Nat), k ≤ rem →
      (∀ d, d < k → (call (i + d)).isSome) → call (i + k) = none →
      retryGo call rem i s = ⟨none, i + k + 1, s + k⟩ := by
  intro k
  induction k with
  | zero =>
    intro rem i s _ _ hk
    simp only [Nat.add_zero] at hk
    cases rem with
    | zero => simp [retryGo, hk]
    | succ r => simp [retryGo, hk]
  | succ k ih =>
    intro rem i s hle hfail hk
    cases rem with
    | zero => omega
    | succ r =>
      have h0 : (call i).isSome := by simpa using hfail 0 (Nat.succ_pos k)
      obtain ⟨e0, he0⟩ := Option.isSome_iff_exists.mp h0
      have hstep : retryGo call (r + 1) i s = retryGo call r (i + 1) (s + 1) := by
        simp [retryGo, he0]
      have hrec := ih r (i + 1) (s + 1) (by omega)
        (fun d hd => by
          have hx := hfail (d + 1) (by omega)
          have hi : i + (d + 1) = i + 1 + d := by omega
          rwa [hi] at hx)
        (by
          have hi : i + (k + 1) = i + 1 + k := by omega
          rwa [hi] at hk)
      rw [hstep, hrec]
      have h1 : i + 1 + k + 1 = i + (k + 1) + 1 := by omega
      have h2 : s + 1 + k = s + (k + 1) := by omega
      rw [h1, h2]

/-- If the wrapped call fails on every attempt, the loop makes `rem + 1`
calls, sleeps `rem` times, and returns the error of the final call. -/
theorem retryGo_allfail (call : Nat → Option Err) (e : Nat → Err)
    (h : ∀ j, call j = some (e j)) :
    ∀ rem i s, retryGo call rem i s = ⟨some (e (i + rem)), i + rem + 1, s + rem⟩ := by
  intro rem
  induction rem with
  | zero => intro i s; simp [retryGo, h i]
  | succ r ih =>
    intro i s
    have hstep : retryGo call (r + 1) i s = retryGo call r (i + 1) (s + 1) := by
      simp [retryGo, h i]
    rw [hstep, ih (i + 1) (s + 1)]
    have h1 : i + 1 + r = i + (r + 1) := by omega
    have h2 : s + 1 + r = s + (r + 1) := by omega
    rw [h1, h2]

/-- `retryGoH` analogue of `retryGo_ok_after`, returning the response of the
first successful attempt. -/
theorem retryGoH_ok_after (head : Nat → Except Err HeadOut) (r0 : HeadOut) :
    ∀ (k rem i s : Nat), k ≤ rem →
      (∀ d, d < k → ∃ ed, head (i + d) = Except.error ed) →
      head (i + k) = Except.ok r0 →
      retryGoH head rem i s = ⟨Except.ok r0, i + k + 1, s + k⟩ := by
  intro k
  induction k with
  | zero =>
    intro rem i s _ _ hk
    simp only [Nat.add_zero] at hk
    cases rem with
    | zero => simp [retryGoH, hk]
    | succ r => simp [retryGoH, hk]
  | succ k ih =>
    intro rem i s hle hfail hk
    cases rem with
    | zero => omega
    | succ r =>
      obtain ⟨e0, he0⟩ := hfail 0 (Nat.succ_pos k)
      simp only [Nat.add_zero] at he0
      have hstep : retryGoH head (r + 1) i s = retryGoH head r (i + 1) (s + 1) := by
        simp [retryGoH, he0]
      have hrec := ih r (i + 1) (s + 1) (by omega)
        (fun d hd => by
          have hx := hfail (d + 1) (by omega)
          have hi : i + (d + 1) = i + 1 + d := by omega
          rwa [hi] at hx)
        (by
          have hi : i + (k + 1) = i + 1 + k := by omega
          rwa [hi] at hk)
      rw [hstep, hrec]
      have h1 : i + 1 + k + 1 = i + (k + 1) + 1 := by omega
      have h2 : s + 1 + k = s + (k + 1) := by omega
      rw [h1, h2]

/-- `retryGoH` analogue of `retryGo_allfail`. -/
theorem retryGoH_allfail (head : Nat → Except Err HeadOut) (e : Nat → Err)
    (h : ∀ j, head j = Except.error (e j)) :
    ∀ rem i s,
      retryGoH head rem i s = ⟨Except.error (e (i + rem)), i + rem + 1, s + rem⟩ := by
  intro rem
  induction rem with
  | zero => intro i s; simp [retryGoH, h i]
  | succ r ih =>
    intro i s
    have hstep : retryGoH head (r + 1) i s = retryGoH head r (i + 1) (s + 1) := by
      simp [retryGoH, h i]
    rw [hstep, ih (i + 1) (s + 1)]
    have h1 : i + 1 + r = i + (r + 1) := by omega
    have h2 : s + 1 + r = s + (r + 1) := by omega
    rw [h1, h2]

/-- A successful `retryGoH` run owes its response to some attempt within the
budget. -/
theorem retryGoH_ok_exists (head : Nat → Except Err HeadOut) :
    ∀ (rem i s : Nat) (r : HeadOut),
      (retryGoH head rem i s).result = Except.ok r →
      ∃ j, i ≤ j ∧ j ≤ i + rem ∧ head j = Except.ok r := by
  intro rem
  induction rem with
  | zero =>
    intro i s r h
    simp only [retryGoH] at h
    exact ⟨i, Nat.le_refl i, by omega, h⟩
  | succ rm ih =>
    intro i s r h
    cases hh : head i with
    | error e =>
      simp only [retryGoH, hh] at h
      obtain ⟨j, hj1, hj2, hj3⟩ := ih (i + 1) (s + 1) r h
      exact ⟨j, by omega, by omega, hj3⟩
    | ok r2 =>
      simp only [retryGoH, hh] at h
      exact ⟨i, Nat.le_refl i, by omega, by rw [hh, h]⟩

/-! ## Lemmas about the GetObjectContent loop -/

/-- If the get request fails on attempts `i..i+k-1`, then succeeds on attempt
`i+k` with a clean drain, the loop returns the updated object after `k + 1`
get requests and `k` sleeps, and the drained bytes pass the limiter once. -/
theorem getContentGo_ok_after (se : Option Bytes → Option Bytes) (rlB : Nat)
    (getReq : Nat → Except Err GetOut) (drain : Nat → GetOut → Bytes × Option Err)
    (obj : Object) (g : GetOut) (bs : Bytes) :
    ∀ (k rem i s : Nat) (tr : List (Nat × Bytes)), k ≤ rem →
      (∀ d, d < k → ∃ ed, getReq (i + d) = Except.error ed) →
      getReq (i + k) = Except.ok g → drain (i + k) g = (bs, none) →
      getContentGo se rlB getReq drain obj rem i s tr =
        ⟨Except.ok (applyGet se obj g bs), i + k + 1, s + k, tr ++ [(rlB, bs)]⟩ := by
  intro k
  induction k with
  | zero =>
    intro rem i s tr _ _ hk hd
    simp only [Nat.add_zero] at hk hd
    cases rem with
    | zero => simp [getContentGo, hk, hd]
    | succ r => simp [getContentGo, hk, hd]
  | succ k ih =>
    intro rem i s tr hle hfail hk hd
    cases rem with
    | zero => omega
    | succ r =>
      obtain ⟨e0, he0⟩ := hfail 0 (Nat.succ_pos k)
      simp only [Nat.add_zero] at he0
      have hstep : getContentGo se rlB getReq drain obj (r + 1) i s tr =
          getContentGo se rlB getReq drain obj r (i + 1) (s + 1) tr := by
        simp [getContentGo, he0]
      have hrec := ih r (i + 1) (s + 1) tr (by omega)
        (fun d hdd => by
          have hx := hfail (d + 1) (by omega)
          have hi : i + (d + 1) = i + 1 + d := by omega
          rwa [hi] at hx)
        (by
          have hi : i + (k + 1) = i + 1 + k := by omega
          rwa [hi] at hk)
        (by
          have hi : i + (k + 1) = i + 1 + k := by omega
          rwa [hi] at hd)
      rw [hstep, hrec]
      have h1 : i + 1 + k + 1 = i + (k + 1) + 1 := by omega
      have h2 : s + 1 + k = s + (k + 1) := by omega
      rw [h1, h2]

/-- If the get request fails on every attempt, the loop makes `rem + 1`
requests, sleeps `rem` times, returns the final attempt's error, and nothing
passes the limiter. -/
theorem getContentGo_allfail (se : Option Bytes → Option Bytes) (rlB : Nat)
    (getReq : Nat → Except Err GetOut) (drain : Nat → GetOut → Bytes × Option Err)
    (obj : Object) (e : Nat → Err) (h : ∀ j, getReq j = Except.error (e j)) :
    ∀ rem i s tr,
      getContentGo se rlB getReq drain obj rem i s tr =
        ⟨Except.error (e (i + rem)), i + rem + 1, s + rem, tr⟩ := by
  intro rem
  induction rem with
  | zero => intro i s tr; simp [getContentGo, h i]
  | succ r ih =>
    intro i s tr
    have hstep : getContentGo se rlB getReq drain obj (r + 1) i s tr =
        getContentGo se rlB getReq drain obj r (i + 1) (s + 1) tr := by
      simp [getContentGo, h i]
    rw [hstep, ih (i + 1) (s + 1) tr]
    have h1 : i + 1 + r = i + (r + 1) := by omega
    have h2 : s + 1 + r = s + (r + 1) := by omega
    rw [h1, h2]

/-- A successful `getContentGo` run ends at some attempt `j` within the
budget whose request succeeded and whose drain was clean; the returned
object is built from exactly that response and those drained bytes, and
`j + 1` get requests were issued (one per loop iteration, so the request is
re-issued on every retry, drain-only failures included). -/
theorem getContentGo_ok_exists (se : Option Bytes → Option Bytes) (rlB : Nat)
    (getReq : Nat → Except Err GetOut) (drain : Nat → GetOut → Bytes × Option Err)
    (obj : Object) :
    ∀ (rem i s : Nat) (tr : List (Nat × Bytes)) (o : Object),
      (getContentGo se rlB getReq drain obj rem i s tr).result = Except.ok o →
      ∃ j g bs, i ≤ j ∧ j ≤ i + rem ∧ getReq j = Except.ok g ∧
        drain j g = (bs, none) ∧ o = applyGet se obj g bs ∧
        (getContentGo se rlB getReq drain obj rem i s tr).getCalls = j + 1 := by
  intro rem
  induction rem with
  | zero =>
    intro i s tr o h
    cases hg : getReq i with
    | error e => simp [getContentGo, hg] at h
    | ok g =>
      cases hd : drain i g with
      | mk bs de =>
        cases de with
        | some e => simp [getContentGo, hg, hd] at h
        | none =>
          simp only [getContentGo, hg, hd, Except.ok.injEq] at h
          simp only [getContentGo, hg, hd]
          exact ⟨i, g, bs, Nat.le_refl i, by omega, hg, hd, h.symm, rfl⟩
  | succ r ih =>
    intro i s tr o h
    cases hg : getReq i with
    | error e =>
      have hstep : getContentGo se rlB getReq drain obj (r + 1) i s tr =
          getContentGo se rlB getReq drain obj r (i + 1) (s + 1) tr := by
        simp [getContentGo, hg]
      rw [hstep] at h ⊢
      obtain ⟨j, g, bs, hj1, hj2, hj3, hj4, hj5, hj6⟩ := ih (i + 1) (s + 1) tr o h
      exact ⟨j, g, bs, by omega, by omega, hj3, hj4, hj5, hj6⟩
    | ok g =>
      cases hd : drain i g with
      | mk bs de =>
        cases de with
        | some e =>
          have hstep : getContentGo se rlB getReq drain obj (r + 1) i s tr =
              getContentGo se rlB getReq drain obj r (i + 1) (s + 1) (tr ++ [(rlB, bs)]) := by
            simp [getContentGo, hg, hd]
          rw [hstep] at h ⊢
          obtain ⟨j, g2, bs2, hj1, hj2, hj3, hj4, hj5, hj6⟩ :=
            ih (i + 1) (s + 1) (tr ++ [(rlB, bs)]) o h
          exact ⟨j, g2, bs2, by omega, by omega, hj3, hj4, hj5, hj6⟩
        | none =>
          simp only [getContentGo, hg, hd, Except.ok.injEq] at h
          simp only [getContentGo, hg, hd]
          exact ⟨i, g, bs, Nat.le_refl i, by omega, hg, hd, h.symm, rfl⟩

/-- Every stream the `GetObjectContent` loop passes through the limiter is
wrapped with the bucket `rlB`. -/
theorem getContentGo_traffic (se : Option Bytes → Option Bytes) (rlB : Nat)
    (getReq : Nat → Except Err GetOut) (drain : Nat → GetOut → Bytes × Option Err)
    (obj : Object) :
    ∀ (rem i s : Nat) (tr : List (Nat × Bytes)),
      (∀ x ∈ tr, x.1 = rlB) →
      ∀ x ∈ (getContentGo se rlB getReq drain obj rem i s tr).rlTraffic,
        x.1 = rlB := by
  intro rem
  induction rem with
  | zero =>
    intro i s tr htr x hx
    cases hg : getReq i with
    | error e =>
      simp only [getContentGo, hg] at hx
      exact htr x hx
    | ok g =>
      cases hd : drain i g with
      | mk bs de =>
        cases de with
        | some e =>
          simp only [getContentGo, hg, hd, List.mem_append, List.mem_singleton] at hx
          rcases hx with hx | hx
          · exact htr x hx
          · rw [hx]
        | none =>
          simp only [getContentGo, hg, hd, List.mem_append, List.mem_singleton] at hx
          rcases hx with hx | hx
          · exact htr x hx
          · rw [hx]
  | succ r ih =>
    intro i s tr htr x hx
    cases hg : getReq i with
    | error e =>
      have hstep : getContentGo se rlB getReq drain obj (r + 1) i s tr =
          getContentGo se rlB getReq drain obj r (i + 1) (s + 1) tr := by
        simp [getContentGo, hg]
      rw [hstep] at hx
      exact ih (i + 1) (s + 1) tr htr x hx
    | ok g =>
      cases hd : drain i g with
      | mk bs de =>
        cases de with
        | some e =>
          have hstep : getContentGo se rlB getReq drain obj (r + 1) i s tr =
              getContentGo se rlB getReq drain obj r (i + 1) (s + 1) (tr ++ [(rlB, bs)]) := by
            simp [getContentGo, hg, hd]
          rw [hstep] at hx
          refine ih (i + 1) (s + 1) (tr ++ [(rlB, bs)]) ?_ x hx
          intro y hy
          rcases List.mem_append.mp hy with hy | hy
          · exact htr y hy
          · rw [List.mem_singleton.mp hy]
        | none =>
          simp only [getContentGo, hg, hd, List.mem_append, List.mem_singleton] at hx
          rcases hx with hx | hx
          · exact htr x hx
          · rw [hx]

/-! ## Lemmas about the pager -/

/-- Peeling the first index out of a shifted `range`-map. -/
theorem range_map_shift {α : Type} (g : Nat → α) (start c : Nat) :
    (List.range (c + 1)).map (fun d => g (start + d)) =
      g start :: (List.range c).map (fun d => g (start + 1 + d)) := by
  rw [List.range_succ_eq_map, List.map_cons, List.map_map]
  refine congrArg₂ _ (by simp) (List.map_congr_left ?_)
  intro d _
  simp only [Function.comp_apply]
  congr 1
  omega

/-- A pager call that processes pages `start..start+cnt-1` cleanly and then
hits a transport error on the request for page `start+cnt`: the client
cursor ends at the last processed page's `VersionIdMarker` (or stays put if
no page was processed), every processed page's records are on the channel in
store order, the cursor state observed at each page request is the previous
page's marker, and the call ends with the transport error. -/
theorem pagerGo_err (se : Option Bytes → Option Bytes) (fetch : Nat → Except Err Page)
    (p : Nat → Page) (e : Err) :
    ∀ (cnt start fuel : Nat) (st : ListState) (acc : List (Option Bytes)),
      (∀ d, d < cnt → fetch (start + d) = Except.ok (p (start + d))) →
      (∀ d, d < cnt → (p (start + d)).lastPage = false) →
      fetch (start + cnt) = Except.error e →
      cnt < fuel →
      pagerGo se fetch fuel start st acc =
        ⟨⟨((List.range cnt).map fun d => (p (start + d)).VersionIdMarker).getLastD st.listMarker,
          st.output ++
            ((List.range cnt).map fun d => (p (start + d)).Versions.map (emitVersion se)).flatten⟩,
         acc ++ st.listMarker :: ((List.range cnt).map fun d => (p (start + d)).VersionIdMarker),
         start + cnt, some e⟩ := by
  intro cnt
  induction cnt with
  | zero =>
    intro start fuel st acc _ _ herr hfuel
    cases fuel with
    | zero => omega
    | succ f =>
      simp only [Nat.add_zero] at herr
      simp [pagerGo, herr]
  | succ c ih =>
    intro start fuel st acc hok hnl herr hfuel
    cases fuel with
    | zero => omega
    | succ f =>
      have h0 : fetch start = Except.ok (p start) := by
        simpa using hok 0 (Nat.succ_pos c)
      have hl0 : (p start).lastPage = false := by
        simpa using hnl 0 (Nat.succ_pos c)
      have hstep : pagerGo se fetch (f + 1) start st acc =
          pagerGo se fetch f (start + 1)
            ⟨(p start).VersionIdMarker, st.output ++ (p start).Versions.map (emitVersion se)⟩
            (acc ++ [st.listMarker]) := by
        simp [pagerGo, h0, listObjectsFn, hl0]
      have hrec := ih (start + 1) f
        ⟨(p start).VersionIdMarker, st.output ++ (p start).Versions.map (emitVersion se)⟩
        (acc ++ [st.listMarker])
        (fun d hd => by
          have hx := hok (d + 1) (by omega)
          have hi : start + (d + 1) = start + 1 + d := by omega
          rwa [hi] at hx)
        (fun d hd => by
          have hx := hnl (d + 1) (by omega)
          have hi : start + (d + 1) = start + 1 + d := by omega
          rwa [hi] at hx)
        (by
          have hi : start + (c + 1) = start + 1 + c := by omega
          rwa [hi] at herr)
        (by omega)
      rw [hstep, hrec]
      simp only [PagerResult.mk.injEq, ListState.mk.injEq]
      refine ⟨⟨?_, ?_⟩, ?_, by omega, trivial⟩
      · rw [range_map_shift (fun n => (p n).VersionIdMarker) start c, List.getLastD_cons]
      · rw [range_map_shift (fun n => (p n).Versions.map (emitVersion se)) start c,
          List.flatten_cons, List.append_assoc]
      · rw [range_map_shift (fun n => (p n).VersionIdMarker) start c]
        simp [List.append_assoc]

/-- A pager call that processes pages `start..start+cnt-1` cleanly and then
receives page `start+cnt` reporting itself last: exactly `cnt + 1` page
requests are issued, every record of every received page is on the channel
in store order, the cursor ends at the last page's marker, and the call ends
clean. -/
theorem pagerGo_last (se : Option Bytes → Option Bytes) (fetch : Nat → Except Err Page)
    (p : Nat → Page) :
    ∀ (cnt start fuel : Nat) (st : ListState) (acc : List (Option Bytes)),
      (∀ d, d < cnt → fetch (start + d) = Except.ok (p (start + d))) →
      (∀ d, d < cnt → (p (start + d)).lastPage = false) →
      fetch (start + cnt) = Except.ok (p (start + cnt)) →
      (p (start + cnt)).lastPage = true →
      cnt < fuel →
      pagerGo se fetch fuel start st acc =
        ⟨⟨(p (start + cnt)).VersionIdMarker,
          st.output ++
            ((List.range (cnt + 1)).map fun d => (p (start + d)).Versions.map (emitVersion se)).flatten⟩,
         acc ++ st.listMarker :: ((List.range cnt).map fun d => (p (start + d)).VersionIdMarker),
         start + cnt + 1, none⟩ := by
  intro cnt
  induction cnt with
  | zero =>
    intro start fuel st acc _ _ hlastok hlast hfuel
    cases fuel with
    | zero => omega
    | succ f =>
      simp only [Nat.add_zero] at hlastok hlast
      simp [pagerGo, hlastok, listObjectsFn, hlast,
        show List.range 1 = [0] from rfl]
  | succ c ih =>
    intro start fuel st acc hok hnl hlastok hlast hfuel
    cases fuel with
    | zero => omega
    | succ f =>
      have h0 : fetch start = Except.ok (p start) := by
        simpa using hok 0 (Nat.succ_pos c)
      have hl0 : (p start).lastPage = false := by
        simpa using hnl 0 (Nat.succ_pos c)
      have hstep : pagerGo se fetch (f + 1) start st acc =
          pagerGo se fetch f (start + 1)
            ⟨(p start).VersionIdMarker, st.output ++ (p start).Versions.map (emitVersion se)⟩
            (acc ++ [st.listMarker]) := by
        simp [pagerGo, h0, listObjectsFn, hl0]
      have hrec := ih (start + 1) f
        ⟨(p start).VersionIdMarker, st.output ++ (p start).Versions.map (emitVersion se)⟩
        (acc ++ [st.listMarker])
        (fun d hd => by
          have hx := hok (d + 1) (by omega)
          have hi : start + (d + 1) = start + 1 + d := by omega
          rwa [hi] at hx)
        (fun d hd => by
          have hx := hnl (d + 1) (by omega)
          have hi : start + (d + 1) = start + 1 + d := by omega
          rwa [hi] at hx)
        (by
          have hi : start + (c + 1) = start + 1 + c := by omega
          rwa [hi] at hlastok)
        (by
          have hi : start + (c + 1) = start + 1 + c := by omega
          rwa [hi] at hlast)
        (by omega)
      rw [hstep, hrec]
      simp only [PagerResult.mk.injEq, ListState.mk.injEq]
      refine ⟨⟨by rw [show start + 1 + c = start + (c + 1) by omega], ?_⟩, ?_, by omega, trivial⟩
      · rw [range_map_shift (fun n => (p n).Versions.map (emitVersion se)) start (c + 1),
          List.flatten_cons, List.append_assoc]
      · rw [range_map_shift (fun n => (p n).VersionIdMarker) start c]
        simp [List.append_assoc]

/-! ## Lemmas about the List retry loop -/

/-- If every pager attempt fails on its very first page request, the `List`
loop leaves the cursor and channel untouched, passes the same (unchanged)
cursor to every attempt, sleeps once per retry, and returns the final
attempt's error. -/
theorem listGo_allfail (se : Option Bytes → Option Bytes)
    (fetch : Nat → Nat → Except Err Page) (f : Nat) (e : Nat → Err)
    (h : ∀ j, fetch j 0 = Except.error (e j)) :
    ∀ (rem i sleeps : Nat) (st : ListState) (fms : List (Option Bytes)),
      listGo se fetch (f + 1) rem i sleeps st fms =
        ⟨st, fms ++ List.replicate (rem + 1) st.listMarker, i + rem + 1,
         sleeps + rem, some (e (i + rem))⟩ := by
  intro rem
  induction rem with
  | zero =>
    intro i sleeps st fms
    simp [listGo, pagerGo, h i, List.replicate]
  | succ r ih =>
    intro i sleeps st fms
    have hstep : listGo se fetch (f + 1) (r + 1) i sleeps st fms =
        listGo se fetch (f + 1) r (i + 1) (sleeps + 1) st (fms ++ [st.listMarker]) := by
      simp [listGo, pagerGo, h i]
    rw [hstep, ih (i + 1) (sleeps + 1) st (fms ++ [st.listMarker])]
    simp only [ListOutcome.mk.injEq]
    refine ⟨trivial, ?_, by omega, by omega, by rw [show i + 1 + r = i + (r + 1) by omega]⟩
    rw [List.append_assoc, List.singleton_append, ← List.replicate_succ]

/-- If the pager fails immediately on attempts `i..i+k-1` and attempt `i+k`
receives a single page reporting itself last, the `List` loop returns nil
after `k + 1` attempts and `k` sleeps, with that page's records on the
channel and the cursor at that page's marker. -/
theorem listGo_fail_then_ok (se : Option Bytes → Option Bytes)
    (fetch : Nat → Nat → Except Err Page) (f : Nat) (e : Nat → Err) (pk : Page) :
    ∀ (k rem i sleeps : Nat) (st : ListState) (fms : List (Option Bytes)),
      k ≤ rem →
      (∀ d, d < k → fetch (i + d) 0 = Except.error (e (i + d))) →
      fetch (i + k) 0 = Except.ok pk → pk.lastPage = true →
      listGo se fetch (f + 1) rem i sleeps st fms =
        ⟨⟨pk.VersionIdMarker, st.output ++ pk.Versions.map (emitVersion se)⟩,
         fms ++ List.replicate (k + 1) st.listMarker, i + k + 1, sleeps + k, none⟩ := by
  intro k
  induction k with
  | zero =>
    intro rem i sleeps st fms _ _ hk hl
    simp only [Nat.add_zero] at hk
    cases rem with
    | zero => simp [listGo, pagerGo, hk, listObjectsFn, hl, List.replicate]
    | succ r => simp [listGo, pagerGo, hk, listObjectsFn, hl, List.replicate]
  | succ k ih =>
    intro rem i sleeps st fms hle hfail hk hl
    cases rem with
    | zero => omega
    | succ r =>
      have h0 : fetch i 0 = Except.error (e i) := by simpa using hfail 0 (Nat.succ_pos k)
      have hstep : listGo se fetch (f + 1) (r + 1) i sleeps st fms =
          listGo se fetch (f + 1) r (i + 1) (sleeps + 1) st (fms ++ [st.listMarker]) := by
        simp [listGo, pagerGo, h0]
      have hrec := ih r (i + 1) (sleeps + 1) st (fms ++ [st.listMarker]) (by omega)
        (fun d hd => by
          have hx := hfail (d + 1) (by omega)
          have hi : i + (d + 1) = i + 1 + d := by omega
          rwa [hi] at hx)
        (by
          have hi : i + (k + 1) = i + 1 + k := by omega
          rwa [hi] at hk)
        hl
      rw [hstep, hrec]
      simp only [ListOutcome.mk.injEq]
      refine ⟨trivial, ?_, by omega, by omega, trivial⟩
      rw [List.append_assoc, List.singleton_append, ← List.replicate_succ]

/-- The cursor recorded for attempt number `fms.length` of the `List` loop
is the cursor state the loop holds when that attempt starts; earlier
entries are untouched. -/
theorem listGo_firstMarkers_get (se : Option Bytes → Option Bytes)
    (fetch : Nat → Nat → Except Err Page) (fuel : Nat) :
    ∀ (rem i sleeps : Nat) (st : ListState) (fms : List (Option Bytes)) (n : Nat),
      n ≤ fms.length →
      (listGo se fetch fuel rem i sleeps st fms).firstMarkers[n]? =
        (fms ++ [st.listMarker])[n]? := by
  intro rem
  induction rem with
  | zero =>
    intro i sleeps st fms n hn
    rcases hpr : pagerGo se (fetch i) fuel 0 st [] with ⟨pst, prm, ppp, perr⟩
    simp [listGo, hpr]
  | succ r ih =>
    intro i sleeps st fms n hn
    rcases hpr : pagerGo se (fetch i) fuel 0 st [] with ⟨pst, prm, ppp, perr⟩
    cases perr with
    | none =>
      have hfin : listGo se fetch fuel (r + 1) i sleeps st fms =
          ⟨pst, fms ++ [st.listMarker], i + 1, sleeps, none⟩ := by
        simp [listGo, hpr]
      rw [hfin]
    | some e2 =>
      have hstep : listGo se fetch fuel (r + 1) i sleeps st fms =
          listGo se fetch fuel r (i + 1) (sleeps + 1) pst (fms ++ [st.listMarker]) := by
        simp [listGo, hpr]
      rw [hstep, ih (i + 1) (sleeps + 1) pst (fms ++ [st.listMarker]) n (by simp; omega),
        List.getElem?_append, if_pos (by simp; omega)]

/-! ## Lemmas about percent-encoding -/

/-- The upper-case hex digit of a value below 16 is a hex byte and decodes
back to the value. -/
theorem upperHexDigit_facts :
    ∀ d, d < 16 → isHexByte (upperHexDigit d) = true ∧ unhexByte (upperHexDigit d) = d := by
  decide

/-- Decoding one store-escaped byte peels exactly that byte off. -/
theorem escapeByte_unescape (b : Nat) (hb : b < 256) (t : Bytes) :
    queryUnescape (escapeByte b ++ t) = consE b (queryUnescape t) := by
  by_cases hE : shouldEscapeQuery b = true
  · by_cases h32 : b = 32
    · subst h32
      have h1 : escapeByte 32 = [43] := rfl
      rw [h1]
      show queryUnescape (43 :: t) = consE 32 (queryUnescape t)
      conv_lhs => unfold queryUnescape
      simp
    · have hdiv : b / 16 < 16 := by omega
      have hmod : b % 16 < 16 := by omega
      have hf1 := upperHexDigit_facts (b / 16) hdiv
      have hf2 := upperHexDigit_facts (b % 16) hmod
      have h1 : escapeByte b = [37, upperHexDigit (b / 16), upperHexDigit (b % 16)] := by
        simp [escapeByte, hE, h32]
      rw [h1]
      simp only [List.cons_append, List.nil_append, queryUnescape, if_pos rfl,
        hf1.1, hf2.1, Bool.and_self, if_true, hf1.2, hf2.2]
      congr 1
      omega
  · have h37 : b ≠ 37 := by
      intro h
      subst h
      simp [shouldEscapeQuery, isAlphaNumByte] at hE
    have h43 : b ≠ 43 := by
      intro h
      subst h
      simp [shouldEscapeQuery, isAlphaNumByte] at hE
    have h1 : escapeByte b = [b] := by simp [escapeByte, hE]
    rw [h1]
    show queryUnescape (b :: t) = consE b (queryUnescape t)
    conv_lhs => unfold queryUnescape
    rw [if_neg h37, if_neg h43]

/-- Decoding is a left inverse of the store's escaping on byte strings. -/
theorem queryEscape_roundtrip (key : Bytes) (hb : ∀ b ∈ key, b < 256) :
    queryUnescape (queryEscape key) = Except.ok key := by
  induction key with
  | nil => rfl
  | cons b rest ih =>
    have hb0 : b < 256 := hb b (List.mem_cons_self b rest)
    have hrest : ∀ x ∈ rest, x < 256 := fun x hx => hb x (List.mem_cons_of_mem b hx)
    show queryUnescape (escapeByte b ++ queryEscape rest) = Except.ok (b :: rest)
    rw [escapeByte_unescape b hb0, ih hrest]
    rfl

/-! ## Claim theorems -/

/-- C5: for every key of bytes, the percent-decoding applied by `List`
recovers the original literal key byte-for-byte from the store's
percent-encoding, and a version record carrying the encoded key is emitted
as an `Object` holding exactly the original key. -/
theorem list_key_decode_roundtrip (se : Option Bytes → Option Bytes) (key : Bytes)
    (hb : ∀ b ∈ key, b < 256) :
    queryUnescape (queryEscape key) = Except.ok key ∧
    ∀ v : VersionRec, v.Key = some (queryEscape key) →
      (emitVersion se v).Key = some key := by
  have hrt := queryEscape_roundtrip key hb
  refine ⟨hrt, fun v hv => ?_⟩
  simp [emitVersion, hv, stringValue, queryUnescapeDropErr, hrt]

/-- Witness for C5 on the key "a b/%+?" (bytes 97 32 98 47 37 43 63), which
holds reserved URL characters. -/
theorem list_key_decode_roundtrip_witness :
    (∀ b ∈ [97, 32, 98, 47, 37, 43, 63], b < 256) ∧
    queryUnescape (queryEscape [97, 32, 98, 47, 37, 43, 63]) =
      Except.ok [97, 32, 98, 47, 37, 43, 63] :=
  ⟨by decide,
   (list_key_decode_roundtrip (fun x => x) [97, 32, 98, 47, 37, 43, 63] (by decide)).1⟩

/-- C10: the page callback emits one `Object` per version record — none is
skipped — and a record whose stored key fails percent-decoding is still
emitted, with the empty string as its key; processing continues normally
(`!lastPage` is still returned), and a `List` call over such a page still
returns nil. -/
theorem list_malformed_key_emitted_empty (se : Option Bytes → Option Bytes)
    (p : Page) (st : ListState) :
    ((listObjectsFn se p st).1.output = st.output ++ p.Versions.map (emitVersion se)) ∧
    ((listObjectsFn se p st).1.output.length = st.output.length + p.Versions.length) ∧
    ((listObjectsFn se p st).2 = !p.lastPage) ∧
    (∀ v ∈ p.Versions, queryUnescape (stringValue v.Key) = Except.error () →
      (emitVersion se v).Key = some []) ∧
    (∀ (storage : S3vStorage) (fetch : Nat → Nat → Except Err Page) (f : Nat),
      fetch 0 0 = Except.ok p → p.lastPage = true →
      (storage.List se fetch (f + 1)).result = none) := by
  refine ⟨rfl, by simp [listObjectsFn], rfl, ?_, ?_⟩
  · intro v _ hbad
    simp [emitVersion, queryUnescapeDropErr, hbad]
  · intro storage fetch f hfetch hlast
    unfold S3vStorage.List
    rw [listGo_fail_then_ok se fetch f (fun _ => 0) p 0 storage.retryCnt 0 0
      ⟨storage.listMarker, []⟩ [] (Nat.zero_le _) (fun d hd => absurd hd (Nat.not_lt_zero d))
      (by simpa using hfetch) hlast]

/-- Witness for C10: a one-record page whose key is a bare "%" (byte 37),
which fails percent-decoding. -/
theorem list_malformed_key_emitted_empty_witness :
    (∀ v ∈ (Page.mk [⟨some [37], some [118], none, none, none⟩] (some [109]) true).Versions,
      queryUnescape (stringValue v.Key) = Except.error () →
      (emitVersion (fun x => x) v).Key = some []) ∧
    queryUnescape [37] = Except.error () :=
  ⟨(list_malformed_key_emitted_empty (fun x => x)
      (Page.mk [⟨some [37], some [118], none, none, none⟩] (some [109]) true)
      ⟨none, []⟩).2.2.2.1,
   by decide⟩

/-- C9: `PutObject` dereferences `*obj.Content` and `*obj.Key` before any
remote call: with either pointer nil the operation crashes (no outcome, the
remote put oracle is never consulted); with both present it is
well-defined. -/
theorem putObject_nil_deref_precondition (storage : S3vStorage) (obj : Object) :
    ((obj.Content = none ∨ obj.Key = none) →
      ∀ put : Nat → Option Err, storage.PutObject put obj = none) ∧
    (∀ content key, obj.Content = some content → obj.Key = some key →
      ∀ put : Nat → Option Err, ∃ out, storage.PutObject put obj = some out) := by
  constructor
  · rintro (h | h) put
    · cases hk : obj.Key with
      | none => simp [S3vStorage.PutObject, h, hk]
      | some k => simp [S3vStorage.PutObject, h, hk]
    · cases hc : obj.Content with
      | none => simp [S3vStorage.PutObject, h, hc]
      | some c => simp [S3vStorage.PutObject, h, hc]
  · intro content key hc hk put
    refine ⟨⟨(retryLoop storage.retryCnt put).result, (retryLoop storage.retryCnt put).attempts,
      (retryLoop storage.retryCnt put).sleeps, [(storage.rlBucket, content)]⟩, ?_⟩
    simp [S3vStorage.PutObject, hc, hk]

/-- Witness for C9: an object with no `Content` crashes `PutObject`; objects
with both fields produce an outcome. -/
theorem putObject_nil_deref_precondition_witness :
    clientW.PutObject (fun _ => none) emptyObj = none ∧
    ∃ out, clientW.PutObject (fun _ => none)
      { emptyObj with Content := some [1], Key := some [2] } = some out :=
  ⟨(putObject_nil_deref_precondition clientW emptyObj).1 (Or.inl rfl) (fun _ => none),
   (putObject_nil_deref_precondition clientW
      { emptyObj with Content := some [1], Key := some [2] }).2 [1] [2] rfl rfl (fun _ => none)⟩

/-- C7: a successful `GetObjectMeta` leaves `Content`, `Key`, `VersionId`,
`IsLatest` (and `ACL`) exactly as they were, and populates the eight
metadata fields from the successful head response of some attempt within
the retry budget. -/
theorem getObjectMeta_frame (storage : S3vStorage) (se : Option Bytes → Option Bytes)
    (head : Nat → Except Err HeadOut) (obj o : Object)
    (h : (storage.GetObjectMeta se head obj).result = Except.ok o) :
    (o.Content = obj.Content ∧ o.Key = obj.Key ∧ o.VersionId = obj.VersionId ∧
      o.IsLatest = obj.IsLatest ∧ o.ACL = obj.ACL) ∧
    ∃ j, j ≤ storage.retryCnt ∧ ∃ r, head j = Except.ok r ∧
      o.ContentType = r.ContentType ∧ o.ContentDisposition = r.ContentDisposition ∧
      o.ContentEncoding = r.ContentEncoding ∧ o.ContentLanguage = r.ContentLanguage ∧
      o.ETag = se r.ETag ∧ o.Metadata = r.Metadata ∧ o.Mtime = r.LastModified ∧
      o.CacheControl = r.CacheControl := by
  rcases hro : retryGoH head storage.retryCnt 0 0 with ⟨res, att, slp⟩
  cases res with
  | error e =>
    exfalso
    unfold S3vStorage.GetObjectMeta at h
    rw [hro] at h
    simp at h
  | ok r =>
    unfold S3vStorage.GetObjectMeta at h
    rw [hro] at h
    simp only [Except.ok.injEq] at h
    subst h
    obtain ⟨j, hj0, hjN, hjr⟩ :=
      retryGoH_ok_exists head storage.retryCnt 0 0 r (by rw [hro])
    exact ⟨⟨rfl, rfl, rfl, rfl, rfl⟩, j, by omega, r, hjr,
      rfl, rfl, rfl, rfl, rfl, rfl, rfl, rfl⟩

/-- Witness for C7: a client with one retry, a head oracle succeeding at
once, and the empty object. -/
theorem getObjectMeta_frame_witness :
    ((clientW.GetObjectMeta (fun x => x) (fun _ => Except.ok headW) emptyObj).result =
      Except.ok (applyHead (fun x => x) emptyObj headW)) ∧
    (((applyHead (fun x => x) emptyObj headW).Content = emptyObj.Content ∧
      (applyHead (fun x => x) emptyObj headW).Key = emptyObj.Key ∧
      (applyHead (fun x => x) emptyObj headW).VersionId = emptyObj.VersionId ∧
      (applyHead (fun x => x) emptyObj headW).IsLatest = emptyObj.IsLatest ∧
      (applyHead (fun x => x) emptyObj headW).ACL = emptyObj.ACL) ∧
    ∃ j, j ≤ clientW.retryCnt ∧ ∃ r, (fun _ : Nat => (Except.ok headW : Except Err HeadOut)) j = Except.ok r ∧
      (applyHead (fun x => x) emptyObj headW).ContentType = r.ContentType ∧
      (applyHead (fun x => x) emptyObj headW).ContentDisposition = r.ContentDisposition ∧
      (applyHead (fun x => x) emptyObj headW).ContentEncoding = r.ContentEncoding ∧
      (applyHead (fun x => x) emptyObj headW).ContentLanguage = r.ContentLanguage ∧
      (applyHead (fun x => x) emptyObj headW).ETag = (fun x => x) r.ETag ∧
      (applyHead (fun x => x) emptyObj headW).Metadata = r.Metadata ∧
      (applyHead (fun x => x) emptyObj headW).Mtime = r.LastModified ∧
      (applyHead (fun x => x) emptyObj headW).CacheControl = r.CacheControl) :=
  ⟨rfl, getObjectMeta_frame clientW (fun x => x) (fun _ => Except.ok headW) emptyObj
    (applyHead (fun x => x) emptyObj headW) rfl⟩

/-- C8: the upload source of `PutObject` and the download destination of
`GetObjectContent` are wrapped by the client's shared rate-limiter bucket,
while `GetObjectMeta` and `DeleteObject` pass nothing through the
limiter. -/
theorem rate_limiter_wrapping :
    (∀ (storage : S3vStorage) (put : Nat → Option Err) (obj : Object) (content key : Bytes),
      obj.Content = some content → obj.Key = some key →
      ∃ out, storage.PutObject put obj = some out ∧
        out.rlTraffic = [(storage.rlBucket, content)]) ∧
    (∀ (storage : S3vStorage) (se : Option Bytes → Option Bytes)
      (getReq : Nat → Except Err GetOut) (drain : Nat → GetOut → Bytes × Option Err)
      (obj : Object) (x : Nat × Bytes),
      x ∈ (storage.GetObjectContent se getReq drain obj).rlTraffic →
      x.1 = storage.rlBucket) ∧
    (∀ (storage : S3vStorage) (se : Option Bytes → Option Bytes)
      (head : Nat → Except Err HeadOut) (obj : Object),
      (storage.GetObjectMeta se head obj).rlTraffic = []) ∧
    (∀ (storage : S3vStorage) (del : Nat → Option Err) (obj : Object),
      (storage.DeleteObject del obj).rlTraffic = []) := by
  refine ⟨?_, ?_, ?_, ?_⟩
  · intro storage put obj content key hc hk
    refine ⟨⟨(retryLoop storage.retryCnt put).result, (retryLoop storage.retryCnt put).attempts,
      (retryLoop storage.retryCnt put).sleeps, [(storage.rlBucket, content)]⟩, ?_, rfl⟩
    simp [S3vStorage.PutObject, hc, hk]
  · intro storage se getReq drain obj x hx
    have hx2 : x ∈ (getContentGo se storage.rlBucket getReq drain obj
        storage.retryCnt 0 0 []).rlTraffic := hx
    exact getContentGo_traffic se storage.rlBucket getReq drain obj storage.retryCnt 0 0 []
      (fun y hy => absurd hy (List.not_mem_nil y)) x hx2
  · intro storage se head obj
    cases h2 : (retryGoH head storage.retryCnt 0 0).result with
    | ok r => simp [S3vStorage.GetObjectMeta, h2]
    | error e => simp [S3vStorage.GetObjectMeta, h2]
  · intro storage del obj
    rfl

/-- Witness for C8: the upload stream of a concrete put carries the
client's bucket id and exactly the object content. -/
theorem rate_limiter_wrapping_witness :
    (∃ out, clientW.PutObject (fun _ => none)
        { emptyObj with Content := some [1, 2], Key := some [3] } = some out ∧
      out.rlTraffic = [(clientW.rlBucket, [1, 2])]) ∧
    (clientW.GetObjectMeta (fun x => x) (fun _ => Except.ok headW) emptyObj).rlTraffic = [] :=
  ⟨rate_limiter_wrapping.1 clientW (fun _ => none)
      { emptyObj with Content := some [1, 2], Key := some [3] } [1, 2] [3] rfl rfl,
   rate_limiter_wrapping.2.2.1 clientW (fun x => x) (fun _ => Except.ok headW) emptyObj⟩

/-- C1: within one `List` call the client cursor observed at the request of
page `d + 1` is page `d`'s response marker (the cursor update happens before
the next page request), and when the transport fails after `cnt ≥ 1` fully
processed pages, the retried pager call's first request is issued with the
cursor of the last fully processed page. -/
theorem list_cursor_resume (storage : S3vStorage) (se : Option Bytes → Option Bytes)
    (fetch : Nat → Nat → Except Err Page) (p : Nat → Page) (e : Err) (cnt f : Nat)
    (hcnt : 1 ≤ cnt) (hN : 1 ≤ storage.retryCnt) (hfuel : cnt < f + 1)
    (hok : ∀ d, d < cnt → fetch 0 d = Except.ok (p d))
    (hnl : ∀ d, d < cnt → (p d).lastPage = false)
    (herr : fetch 0 cnt = Except.error e) :
    (∀ d, d < cnt →
      (pagerGo se (fetch 0) (f + 1) 0 ⟨storage.listMarker, []⟩ []).reqMarkers[d + 1]? =
        some ((p d).VersionIdMarker)) ∧
    (storage.List se fetch (f + 1)).firstMarkers[1]? =
      some ((p (cnt - 1)).VersionIdMarker) := by
  have hp := pagerGo_err se (fetch 0) p e cnt 0 (f + 1) ⟨storage.listMarker, []⟩ []
    (fun d hd => by simpa using hok d hd)
    (fun d hd => by simpa using hnl d hd)
    (by simpa using herr)
    hfuel
  constructor
  · intro d hd
    rw [hp]
    simp [List.getElem?_map, List.getElem?_range, hd]
  · unfold S3vStorage.List
    obtain ⟨r, hr⟩ : ∃ r, storage.retryCnt = r + 1 := ⟨storage.retryCnt - 1, by omega⟩
    rw [hr]
    simp only [listGo, hp, List.nil_append]
    rw [listGo_firstMarkers_get se fetch (f + 1) r 1 1 _ [storage.listMarker] 1 (by simp)]
    obtain ⟨c, hc⟩ : ∃ c, cnt = c + 1 := ⟨cnt - 1, by omega⟩
    subst hc
    simp [List.range_succ, List.getLastD_concat]

/-- Witness for C1: one processed page with marker byte 5, then a transport
error; the second attempt's first request carries marker byte 5. -/
theorem list_cursor_resume_witness :
    (∀ d, d < 1 →
      (pagerGo (fun x => x) (fetchW 0) 2 0 ⟨clientW.listMarker, []⟩ []).reqMarkers[d + 1]? =
        some ((pW d).VersionIdMarker)) ∧
    (clientW.List (fun x => x) fetchW 2).firstMarkers[1]? =
      some ((pW (1 - 1)).VersionIdMarker) :=
  list_cursor_resume clientW (fun x => x) fetchW pW 3 1 1 (by decide) (by decide) (by decide)
    (by decide) (by decide) (by decide)

/-- C6: a `List` call whose pages all arrive, the last reporting itself
last, returns nil after a single attempt with every version record of every
page on the channel in store order, and issues exactly `cnt + 1` page
requests (none past the last page). -/
theorem list_stops_at_last_page (storage : S3vStorage) (se : Option Bytes → Option Bytes)
    (fetch : Nat → Nat → Except Err Page) (p : Nat → Page) (cnt f : Nat)
    (hfuel : cnt < f + 1)
    (hok : ∀ d, d ≤ cnt → fetch 0 d = Except.ok (p d))
    (hnl : ∀ d, d < cnt → (p d).lastPage = false)
    (hlast : (p cnt).lastPage = true) :
    storage.List se fetch (f + 1) =
      ⟨⟨(p cnt).VersionIdMarker,
        ((List.range (cnt + 1)).map fun d => (p d).Versions.map (emitVersion se)).flatten⟩,
       [storage.listMarker], 1, 0, none⟩ ∧
    (pagerGo se (fetch 0) (f + 1) 0 ⟨storage.listMarker, []⟩ []).reqMarkers.length =
      cnt + 1 := by
  have hp := pagerGo_last se (fetch 0) p cnt 0 (f + 1) ⟨storage.listMarker, []⟩ []
    (fun d hd => by simpa using hok d (Nat.le_of_lt hd))
    (fun d hd => by simpa using hnl d hd)
    (by simpa using hok cnt (Nat.le_refl cnt))
    (by simpa using hlast)
    hfuel
  constructor
  · unfold S3vStorage.List
    cases hr : storage.retryCnt with
    | zero => simp [listGo, hp]
    | succ r => simp [listGo, hp]
  · rw [hp]
    simp

/-- Witness for C6: a single last page of one record, delivered at once. -/
theorem list_stops_at_last_page_witness :
    clientW.List (fun x => x) (fun _ _ => Except.ok pageW) 1 =
      ⟨⟨(pageW).VersionIdMarker,
        ((List.range 1).map fun _ => pageW.Versions.map (emitVersion (fun x => x))).flatten⟩,
       [clientW.listMarker], 1, 0, none⟩ ∧
    (pagerGo (fun x => x) ((fun _ _ => Except.ok pageW) 0) 1 0
      ⟨clientW.listMarker, []⟩ []).reqMarkers.length = 1 :=
  list_stops_at_last_page clientW (fun x => x) (fun _ _ => Except.ok pageW)
    (fun _ => pageW) 0 0 (by decide) (fun d _ => rfl) (fun d hd => absurd hd (by omega))
    (by decide)

/-- C3: for each of the five operations, a wrapped remote call failing on
exactly the first `k ≤ retryCnt` attempts and succeeding on attempt `k + 1`
yields success on attempt `k + 1` (so at most `retryCnt + 1` attempts), with
exactly `k` sleeps of the retry interval. -/
theorem retry_succeeds_after_k_failures :
    (∀ (storage : S3vStorage) (k : Nat) (put : Nat → Option Err) (obj : Object)
      (content key : Bytes),
      k ≤ storage.retryCnt → (∀ d, d < k → (put d).isSome) → put k = none →
      obj.Content = some content → obj.Key = some key →
      storage.PutObject put obj = some ⟨none, k + 1, k, [(storage.rlBucket, content)]⟩) ∧
    (∀ (storage : S3vStorage) (k : Nat) (del : Nat → Option Err) (obj : Object),
      k ≤ storage.retryCnt → (∀ d, d < k → (del d).isSome) → del k = none →
      storage.DeleteObject del obj = ⟨none, k + 1, k, []⟩) ∧
    (∀ (storage : S3vStorage) (k : Nat) (se : Option Bytes → Option Bytes)
      (head : Nat → Except Err HeadOut) (obj : Object) (r : HeadOut),
      k ≤ storage.retryCnt → (∀ d, d < k → ∃ ed, head d = Except.error ed) →
      head k = Except.ok r →
      storage.GetObjectMeta se head obj = ⟨Except.ok (applyHead se obj r), k + 1, k, []⟩) ∧
    (∀ (storage : S3vStorage) (k : Nat) (se : Option Bytes → Option Bytes)
      (getReq : Nat → Except Err GetOut) (drain : Nat → GetOut → Bytes × Option Err)
      (obj : Object) (g : GetOut) (bs : Bytes),
      k ≤ storage.retryCnt → (∀ d, d < k → ∃ ed, getReq d = Except.error ed) →
      getReq k = Except.ok g → drain k g = (bs, none) →
      storage.GetObjectContent se getReq drain obj =
        ⟨Except.ok (applyGet se obj g bs), k + 1, k, [(storage.rlBucket, bs)]⟩) ∧
    (∀ (storage : S3vStorage) (k : Nat) (se : Option Bytes → Option Bytes)
      (fetch : Nat → Nat → Except Err Page) (e : Nat → Err) (pk : Page) (f : Nat),
      k ≤ storage.retryCnt → (∀ d, d < k → fetch d 0 = Except.error (e d)) →
      fetch k 0 = Except.ok pk → pk.lastPage = true →
      storage.List se fetch (f + 1) =
        ⟨⟨pk.VersionIdMarker, pk.Versions.map (emitVersion se)⟩,
         List.replicate (k + 1) storage.listMarker, k + 1, k, none⟩) := by
  refine ⟨?_, ?_, ?_, ?_, ?_⟩
  · intro storage k put obj content key hk hfail hsucc hc hkey
    have hrl : retryLoop storage.retryCnt put = ⟨none, k + 1, k⟩ := by
      have hgo := retryGo_ok_after put k storage.retryCnt 0 0 hk
        (fun d hd => by simpa using hfail d hd) (by simpa using hsucc)
      simpa [retryLoop] using hgo
    simp [S3vStorage.PutObject, hc, hkey, hrl]
  · intro storage k del obj hk hfail hsucc
    have hrl : retryLoop storage.retryCnt del = ⟨none, k + 1, k⟩ := by
      have hgo := retryGo_ok_after del k storage.retryCnt 0 0 hk
        (fun d hd => by simpa using hfail d hd) (by simpa using hsucc)
      simpa [retryLoop] using hgo
    simp [S3vStorage.DeleteObject, hrl]
  · intro storage k se head obj r hk hfail hsucc
    have hrh : retryGoH head storage.retryCnt 0 0 = ⟨Except.ok r, k + 1, k⟩ := by
      have hgo := retryGoH_ok_after head r k storage.retryCnt 0 0 hk
        (fun d hd => by simpa using hfail d hd) (by simpa using hsucc)
      simpa using hgo
    simp [S3vStorage.GetObjectMeta, hrh]
  · intro storage k se getReq drain obj g bs hk hfail hsucc hdr
    have hgo := getContentGo_ok_after se storage.rlBucket getReq drain obj g bs
      k storage.retryCnt 0 0 [] hk
      (fun d hd => by simpa using hfail d hd) (by simpa using hsucc) (by simpa using hdr)
    simpa [S3vStorage.GetObjectContent] using hgo
  · intro storage k se fetch e pk f hk hfail hsucc hlast
    have hgo := listGo_fail_then_ok se fetch f e pk k storage.retryCnt 0 0
      ⟨storage.listMarker, []⟩ [] hk
      (fun d hd => by simpa using hfail d hd) (by simpa using hsucc) hlast
    simpa [S3vStorage.List] using hgo

/-- Witness for C3 at retry count 1 and `k = 1` for all five operations. -/
theorem retry_succeeds_after_k_failures_witness :
    clientW.PutObject (fun i => if i = 0 then some 9 else none)
        { emptyObj with Content := some [1, 2], Key := some [3] } =
      some ⟨none, 2, 1, [(clientW.rlBucket, [1, 2])]⟩ ∧
    clientW.DeleteObject (fun i => if i = 0 then some 9 else none) emptyObj =
      ⟨none, 2, 1, []⟩ ∧
    clientW.GetObjectMeta (fun x => x)
        (fun i => if i = 0 then Except.error 9 else Except.ok headW) emptyObj =
      ⟨Except.ok (applyHead (fun x => x) emptyObj headW), 2, 1, []⟩ ∧
    clientW.GetObjectContent (fun x => x)
        (fun i => if i = 0 then Except.error 9 else Except.ok getW)
        (fun _ _ => ([4, 5], none)) emptyObj =
      ⟨Except.ok (applyGet (fun x => x) emptyObj getW [4, 5]), 2, 1,
       [(clientW.rlBucket, [4, 5])]⟩ ∧
    clientW.List (fun x => x)
        (fun i _ => if i = 0 then Except.error 9 else Except.ok pageW) 1 =
      ⟨⟨pageW.VersionIdMarker, pageW.Versions.map (emitVersion (fun x => x))⟩,
       List.replicate 2 clientW.listMarker, 2, 1, none⟩ :=
  ⟨retry_succeeds_after_k_failures.1 clientW 1 (fun i => if i = 0 then some 9 else none)
      { emptyObj with Content := some [1, 2], Key := some [3] } [1, 2] [3]
      (by decide) (by decide) (by decide) rfl rfl,
   retry_succeeds_after_k_failures.2.1 clientW 1 (fun i => if i = 0 then some 9 else none)
      emptyObj (by decide) (by decide) (by decide),
   retry_succeeds_after_k_failures.2.2.1 clientW 1 (fun x => x)
      (fun i => if i = 0 then Except.error 9 else Except.ok headW) emptyObj headW
      (by decide)
      (fun d hd => by
        have hd0 : d = 0 := by omega
        subst hd0
        exact ⟨9, rfl⟩)
      rfl,
   retry_succeeds_after_k_failures.2.2.2.1 clientW 1 (fun x => x)
      (fun i => if i = 0 then Except.error 9 else Except.ok getW)
      (fun _ _ => ([4, 5], none)) emptyObj getW [4, 5]
      (by decide)
      (fun d hd => by
        have hd0 : d = 0 := by omega
        subst hd0
        exact ⟨9, rfl⟩)
      rfl rfl,
   retry_succeeds_after_k_failures.2.2.2.2 clientW 1 (fun x => x)
      (fun i _ => if i = 0 then Except.error 9 else Except.ok pageW)
      (fun _ => 9) pageW 0 (by decide) (fun d hd => by
        have hd0 : d = 0 := by omega
        subst hd0
        rfl)
      rfl (by decide)⟩

/-- C4: for each of the five operations, a wrapped remote call failing on
every attempt makes the operation return exactly the error of the final
(`retryCnt + 1`th) attempt — unwrapped, no aggregation — after `retryCnt`
sleeps of the retry interval. -/
theorem retry_exhaustion_returns_final_error :
    (∀ (storage : S3vStorage) (put : Nat → Option Err) (e : Nat → Err) (obj : Object)
      (content key : Bytes),
      (∀ j, put j = some (e j)) → obj.Content = some content → obj.Key = some key →
      storage.PutObject put obj =
        some ⟨some (e storage.retryCnt), storage.retryCnt + 1, storage.retryCnt,
          [(storage.rlBucket, content)]⟩) ∧
    (∀ (storage : S3vStorage) (del : Nat → Option Err) (e : Nat → Err) (obj : Object),
      (∀ j, del j = some (e j)) →
      storage.DeleteObject del obj =
        ⟨some (e storage.retryCnt), storage.retryCnt + 1, storage.retryCnt, []⟩) ∧
    (∀ (storage : S3vStorage) (se : Option Bytes → Option Bytes)
      (head : Nat → Except Err HeadOut) (e : Nat → Err) (obj : Object),
      (∀ j, head j = Except.error (e j)) →
      storage.GetObjectMeta se head obj =
        ⟨Except.error (e storage.retryCnt), storage.retryCnt + 1, storage.retryCnt, []⟩) ∧
    (∀ (storage : S3vStorage) (se : Option Bytes → Option Bytes)
      (getReq : Nat → Except Err GetOut) (drain : Nat → GetOut → Bytes × Option Err)
      (e : Nat → Err) (obj : Object),
      (∀ j, getReq j = Except.error (e j)) →
      storage.GetObjectContent se getReq drain obj =
        ⟨Except.error (e storage.retryCnt), storage.retryCnt + 1, storage.retryCnt, []⟩) ∧
    (∀ (storage : S3vStorage) (se : Option Bytes → Option Bytes)
      (fetch : Nat → Nat → Except Err Page) (e : Nat → Err) (f : Nat),
      (∀ j, fetch j 0 = Except.error (e j)) →
      storage.List se fetch (f + 1) =
        ⟨⟨storage.listMarker, []⟩,
         List.replicate (storage.retryCnt + 1) storage.listMarker,
         storage.retryCnt + 1, storage.retryCnt, some (e storage.retryCnt)⟩) := by
  refine ⟨?_, ?_, ?_, ?_, ?_⟩
  · intro storage put e obj content key hall hc hkey
    have hrl : retryLoop storage.retryCnt put =
        ⟨some (e storage.retryCnt), storage.retryCnt + 1, storage.retryCnt⟩ := by
      have hgo := retryGo_allfail put e hall storage.retryCnt 0 0
      simpa [retryLoop] using hgo
    simp [S3vStorage.PutObject, hc, hkey, hrl]
  · intro storage del e obj hall
    have hrl : retryLoop storage.retryCnt del =
        ⟨some (e storage.retryCnt), storage.retryCnt + 1, storage.retryCnt⟩ := by
      have hgo := retryGo_allfail del e hall storage.retryCnt 0 0
      simpa [retryLoop] using hgo
    simp [S3vStorage.DeleteObject, hrl]
  · intro storage se head e obj hall
    have hrh : retryGoH head storage.retryCnt 0 0 =
        ⟨Except.error (e storage.retryCnt), storage.retryCnt + 1, storage.retryCnt⟩ := by
      have hgo := retryGoH_allfail head e hall storage.retryCnt 0 0
      simpa using hgo
    simp [S3vStorage.GetObjectMeta, hrh]
  · intro storage se getReq drain e obj hall
    have hgo := getContentGo_allfail se storage.rlBucket getReq drain obj e hall
      storage.retryCnt 0 0 []
    simpa [S3vStorage.GetObjectContent] using hgo
  · intro storage se fetch e f hall
    have hgo := listGo_allfail se fetch f e hall storage.retryCnt 0 0
      ⟨storage.listMarker, []⟩ []
    simpa [S3vStorage.List] using hgo

/-- Witness for C4 at retry count 1 with per-attempt errors `j + 1`: every
operation returns the final attempt's error, code 2. -/
theorem retry_exhaustion_returns_final_error_witness :
    clientW.PutObject (fun j => some (j + 1))
        { emptyObj with Content := some [1, 2], Key := some [3] } =
      some ⟨some 2, 2, 1, [(clientW.rlBucket, [1, 2])]⟩ ∧
    clientW.DeleteObject (fun j => some (j + 1)) emptyObj = ⟨some 2, 2, 1, []⟩ ∧
    clientW.GetObjectMeta (fun x => x) (fun j => Except.error (j + 1)) emptyObj =
      ⟨Except.error 2, 2, 1, []⟩ ∧
    clientW.GetObjectContent (fun x => x) (fun j => Except.error (j + 1))
        (fun _ _ => ([4, 5], none)) emptyObj = ⟨Except.error 2, 2, 1, []⟩ ∧
    clientW.List (fun x => x) (fun j _ => Except.error (j + 1)) 1 =
      ⟨⟨clientW.listMarker, []⟩, List.replicate 2 clientW.listMarker, 2, 1, some 2⟩ :=
  ⟨retry_exhaustion_returns_final_error.1 clientW (fun j => some (j + 1)) (fun j => j + 1)
      { emptyObj with Content := some [1, 2], Key := some [3] } [1, 2] [3]
      (fun _ => rfl) rfl rfl,
   retry_exhaustion_returns_final_error.2.1 clientW (fun j => some (j + 1)) (fun j => j + 1)
      emptyObj (fun _ => rfl),
   retry_exhaustion_returns_final_error.2.2.1 clientW (fun x => x)
      (fun j => Except.error (j + 1)) (fun j => j + 1) emptyObj (fun _ => rfl),
   retry_exhaustion_returns_final_error.2.2.2.1 clientW (fun x => x)
      (fun j => Except.error (j + 1)) (fun _ _ => ([4, 5], none)) (fun j => j + 1)
      emptyObj (fun _ => rfl),
   retry_exhaustion_returns_final_error.2.2.2.2 clientW (fun x => x)
      (fun j _ => Except.error (j + 1)) (fun j => j + 1) 0 (fun _ => rfl)⟩

/-- C2 counterexample: with the get request succeeding on every attempt and
the body drain failing only once, the code still issues the get request
twice — a drain failure re-enters the loop head and re-issues the remote
get request, so the two phases are not retried as separate units. -/
theorem getObjectContent_phases_cex :
    (clientW.GetObjectContent (fun x => x) (fun _ => Except.ok getW)
      (fun i _ => if i = 0 then ([], some 9) else ([4, 5], none)) emptyObj).getCalls = 2 ∧
    (clientW.GetObjectContent (fun x => x) (fun _ => Except.ok getW)
      (fun i _ => if i = 0 then ([], some 9) else ([4, 5], none)) emptyObj).result =
      Except.ok (applyGet (fun x => x) emptyObj getW [4, 5]) := by
  constructor <;> rfl

/-- C2 amended: request and body-drain failures share one retry loop — on
success at attempt `j`, exactly `j + 1` get requests were issued (one per
attempt, so a drain-only failure still re-issues the request), and the final
`Content` is exactly the successful attempt's drained bytes: the buffer is
fresh each attempt, so no bytes are duplicated. -/
theorem getObjectContent_single_loop_fresh_buffer (storage : S3vStorage)
    (se : Option Bytes → Option Bytes) (getReq : Nat → Except Err GetOut)
    (drain : Nat → GetOut → Bytes × Option Err) (obj o : Object)
    (h : (storage.GetObjectContent se getReq drain obj).result = Except.ok o) :
    ∃ j g bs, j ≤ storage.retryCnt ∧ getReq j = Except.ok g ∧ drain j g = (bs, none) ∧
      o = applyGet se obj g bs ∧ o.Content = some bs ∧
      (storage.GetObjectContent se getReq drain obj).getCalls = j + 1 := by
  have h2 : (getContentGo se storage.rlBucket getReq drain obj
      storage.retryCnt 0 0 []).result = Except.ok o := h
  obtain ⟨j, g, bs, hj0, hjN, hok, hdr, heq, hcalls⟩ :=
    getContentGo_ok_exists se storage.rlBucket getReq drain obj storage.retryCnt 0 0 [] o h2
  refine ⟨j, g, bs, by omega, hok, hdr, heq, ?_, hcalls⟩
  rw [heq]
  simp [applyGet]

/-- Witness for C2's amended claim at the counterexample input: success
lands on attempt 1 after a drain-only failure. -/
theorem getObjectContent_single_loop_fresh_buffer_witness :
    ∃ j g bs, j ≤ clientW.retryCnt ∧
      (fun _ : Nat => (Except.ok getW : Except Err GetOut)) j = Except.ok g ∧
      (fun i (_ : GetOut) =>
        if i = 0 then (([] : Bytes), (some 9 : Option Err)) else ([4, 5], none)) j g =
        (bs, none) ∧
      applyGet (fun x => x) emptyObj getW [4, 5] = applyGet (fun x => x) emptyObj g bs ∧
      (applyGet (fun x => x) emptyObj getW [4, 5]).Content = some bs ∧
      (clientW.GetObjectContent (fun x => x) (fun _ => Except.ok getW)
        (fun i _ => if i = 0 then ([], some 9) else ([4, 5], none)) emptyObj).getCalls =
        j + 1 :=
  getObjectContent_single_loop_fresh_buffer clientW (fun x => x) (fun _ => Except.ok getW)
    (fun i _ => if i = 0 then ([], some 9) else ([4, 5], none)) emptyObj
    (applyGet (fun x => x) emptyObj getW [4, 5]) rfl
